import Mathlib

/-!
Verification of the GrandMawsCookie recipe scaler.

The Python sources (`GrandMawsCookie_Console_Working.py` and
`GrandMawsCookie_APK.py`) share a small pure core: servings validation,
scaling-factor arithmetic, recipe scaling and amount formatting.  We embed
that core shallowly: Python floats become exact rationals — except that
parsing a numeric literal whose magnitude reaches the IEEE-754 double
overflow boundary `2 ^ 1024 - 2 ^ 970` yields an infinity, as Python
`float()` does — Python dicts (insertion-ordered) become association lists,
and a Python function that can raise an uncaught exception returns `Option`
(`none` = the call raises).
-/

attribute [local semireducible] Rat.mul Rat.inv Rat.add Rat.sub Rat.ofScientific

/-- The ten ASCII digit characters, the digits accepted by the embedded
numeric parser. -/
def digitList : List Char := ['0', '1', '2', '3', '4', '5', '6', '7', '8', '9']

/-- Whether a character is an ASCII digit. -/
def isDigitChar (c : Char) : Bool := decide (c ∈ digitList)

/-- Numeric value of an ASCII digit character. -/
def digitVal (c : Char) : Nat := c.toNat - 48

/-- ASCII whitespace characters stripped by Python `str.strip()`. -/
def spaceList : List Char := [' ', '\t', '\n', '\x0b', '\x0c', '\r']

/-- Whether a character is ASCII whitespace. -/
def pyIsSpace (c : Char) : Bool := decide (c ∈ spaceList)

/-- Model of Python `str.strip()`: drop whitespace at both ends. -/
def pyStrip (l : List Char) : List Char :=
  ((l.dropWhile pyIsSpace).reverse.dropWhile pyIsSpace).reverse

/-- ASCII lowering, as used by the case-insensitive `inf` / `nan` match of
Python float parsing. -/
def asciiLower (c : Char) : Char :=
  if 'A' ≤ c ∧ c ≤ 'Z' then Char.ofNat (c.toNat + 32) else c

/-- Value of a Python float: a finite rational (idealised, exact), a signed
infinity, or NaN. -/
inductive PyNum where
  | finite (q : ℚ)
  | inf (neg : Bool)
  | nan
deriving DecidableEq

/-- Consume an optional leading sign; returns (isNegative, rest). -/
def parseSign : List Char → Bool × List Char
  | [] => (false, [])
  | c :: rest =>
    if c = '-' then (true, rest)
    else if c = '+' then (false, rest)
    else (false, c :: rest)

/-- Consume a Python `digitpart`: a digit run with single underscores allowed
between digits.  Accumulates the value `v` and the digit count `n`; returns
(value, digitCount, rest).  An underscore not followed by a digit is left in
`rest` (the caller then rejects the leftover). -/
def takeDigitPart : List Char → Nat → Nat → Nat × Nat × List Char
  | [], v, n => (v, n, [])
  | c :: rest, v, n =>
    if isDigitChar c then takeDigitPart rest (10 * v + digitVal c) (n + 1)
    else if c = '_' then
      match rest with
      | c2 :: rest2 =>
        if isDigitChar c2 ∧ 0 < n then takeDigitPart rest2 (10 * v + digitVal c2) (n + 1)
        else (v, n, c :: rest)
      | [] => (v, n, c :: rest)
    else (v, n, c :: rest)

/-- Magnitude threshold at which Python `float()` overflows to infinity:
a correctly rounded (ties-to-even) decimal-to-double conversion yields
`inf` exactly when the exact magnitude reaches the midpoint
`2 ^ 1024 - 2 ^ 970` between the largest finite double and `2 ^ 1024`. -/
def FLOAT_OVERFLOW : ℚ := 2 ^ 1024 - 2 ^ 970

/-- Build the parsed float from sign and (non-negative) exact magnitude:
infinity at or beyond the double overflow threshold, otherwise the exact
rational (finite magnitudes are idealised as exact — no rounding and no
underflow to zero). -/
def mkPyFloat (neg : Bool) (mag : ℚ) : PyNum :=
  if FLOAT_OVERFLOW ≤ mag then PyNum.inf neg
  else PyNum.finite (if neg then -mag else mag)

/-- Finish parsing a numeric literal after the mantissa: either end of input
or an exponent `e`/`E` with optional sign and a digit run. -/
def finishNum (neg : Bool) (mant : ℚ) (cs : List Char) : Option PyNum :=
  match cs with
  | [] => some (mkPyFloat neg mant)
  | c :: cs2 =>
    if c = 'e' ∨ c = 'E' then
      let s := parseSign cs2
      let tE := takeDigitPart s.2 0 0
      if tE.2.1 = 0 then none
      else if tE.2.2 = [] then
        let v := mant * (10 : ℚ) ^ (if s.1 then -(tE.1 : ℤ) else (tE.1 : ℤ))
        some (mkPyFloat neg v)
      else none
    else none

/-- Body of float parsing after the sign: case-insensitive `inf`, `infinity`
and `nan` literals, else a decimal number `digits [. digits] [exponent]`. -/
def pyFloatBody (neg : Bool) (rest : List Char) : Option PyNum :=
  let low := rest.map asciiLower
  if low = ['i', 'n', 'f'] ∨ low = ['i', 'n', 'f', 'i', 'n', 'i', 't', 'y'] then
    some (PyNum.inf neg)
  else if low = ['n', 'a', 'n'] then some PyNum.nan
  else
    match takeDigitPart rest 0 0 with
    | (ip, ni, c :: cs2) =>
      if c = '.' then
        match takeDigitPart cs2 0 0 with
        | (fp, nf, cs3) =>
          if ni = 0 ∧ nf = 0 then none
          else finishNum neg ((ip : ℚ) + (fp : ℚ) / 10 ^ nf) cs3
      else if ni = 0 then none
      else finishNum neg (ip : ℚ) (c :: cs2)
    | (ip, ni, []) => if ni = 0 then none else finishNum neg (ip : ℚ) []

/-- Model of Python `float(s)` on a character list: `none` models a
`ValueError`.  ASCII digits only: the Unicode digit strings CPython also
accepts are not modelled (no theorem's inputs leave the ASCII region). -/
def pyFloatChars (cs : List Char) : Option PyNum :=
  let p := parseSign cs
  pyFloatBody p.1 p.2

/-- Model of Python `int()` applied to a (finite) float: truncation toward
zero. -/
def pyInt (q : ℚ) : ℤ := if 0 ≤ q then ⌊q⌋ else ⌈q⌉

/-- `MIN_SERVINGS` from the source. -/
def MIN_SERVINGS : ℤ := 1

/-- `MAX_SERVINGS` from the source. -/
def MAX_SERVINGS : ℤ := 100

/-- `ORIGINAL_SERVINGS` from the source. -/
def ORIGINAL_SERVINGS : ℤ := 12

/-- `is_valid_servings` from `GrandMawsCookie_Console_Working.py`.

Returns `some (is_valid, error_message, value)` when the Python function
returns, `none` when it raises an uncaught exception.  The only uncaught
exception path: `float(servings_str)` yields an infinity — from the literals
`inf`/`infinity` or from a numeral at or beyond the double overflow
threshold — and `int(servings)` then raises `OverflowError`, which the
`except ValueError` clause does not catch.  `int(nan)` raises `ValueError`,
which is caught. -/
def is_valid_servings (servings_str : String) : Option (Bool × String × ℤ) :=
  if servings_str.data = [] then
    some (false, "Servings cannot be empty", 0)
  else
    match pyFloatChars (pyStrip servings_str.data) with
    | none => some (false, "Servings must be a valid number", 0)
    | some PyNum.nan => some (false, "Servings must be a valid number", 0)
    | some (PyNum.inf _) => none
    | some (PyNum.finite q) =>
      if q ≠ (pyInt q : ℚ) then some (false, "Servings must be a whole number", 0)
      else
        let servings := pyInt q
        if servings < MIN_SERVINGS then some (false, "Servings must be at least 1", 0)
        else if servings > MAX_SERVINGS then some (false, "Servings cannot exceed 100", 0)
        else some (true, "", servings)

/-- Character for a single decimal digit value. -/
def digitChar (d : Nat) : Char := Char.ofNat (48 + d)

/-- Decimal digits, least significant first, with explicit fuel (the fuel
keeps the recursion structural so that the kernel can evaluate it). -/
def natCharsRevFuel : Nat → Nat → List Char
  | 0, _ => []
  | fuel + 1, n => if n = 0 then [] else digitChar (n % 10) :: natCharsRevFuel fuel (n / 10)

/-- Decimal digits of `n`, least significant first (empty for `0`): `n`
itself is always enough fuel. -/
def natCharsRev (n : Nat) : List Char := natCharsRevFuel n n

/-- Decimal numeral of a natural number, as Python `str` renders it. -/
def natChars (n : Nat) : List Char :=
  if n = 0 then ['0'] else (natCharsRev n).reverse

/-- Decimal numeral of an integer, as Python `str` renders it. -/
def intChars (n : ℤ) : List Char :=
  if n < 0 then '-' :: natChars n.natAbs else natChars n.toNat

/-- Python `round` on rationals: round to the nearest integer, ties to the
even integer (banker's rounding). -/
def pyRoundHalfEven (q : ℚ) : ℤ :=
  let f := ⌊q⌋
  let r := q - (f : ℚ)
  if r < 1/2 then f else if 1/2 < r then f + 1 else if f % 2 = 0 then f else f + 1

/-- Python `round(x, 2)`: round to two decimal places. -/
def pyRound2 (q : ℚ) : ℚ := (pyRoundHalfEven (q * 100) : ℚ) / 100

/-- Remove the trailing run of character `c` from a list, as Python
`str.rstrip` with a single-character argument. -/
def dropTrailing (c : Char) : List Char → List Char
  | [] => []
  | a :: rest =>
    let r := dropTrailing c rest
    if r = [] ∧ a = c then [] else a :: r

/-- Two-digit zero-padded rendering of `m < 100`. -/
def twoDigits (m : Nat) : List Char := [digitChar (m / 10 % 10), digitChar (m % 10)]

/-- Python `f"{amount:.2f}"` for a non-negative rational: the amount rounded
to two decimals (ties to even), rendered with exactly two decimal places.
Every call site in the source is guarded by `amount > 0`. -/
def fixed2Chars (a : ℚ) : List Char :=
  let n := (pyRoundHalfEven (a * 100)).toNat
  natChars (n / 100) ++ '.' :: twoDigits (n % 100)

/-- `.rstrip("0").rstrip(".")` applied after the fixed two-decimal
rendering. -/
def stripZerosDot (l : List Char) : List Char := dropTrailing '.' (dropTrailing '0' l)

/-- The strict fraction table of the source: `0.25 → "1/4"`, `0.5 → "1/2"`,
`0.75 → "3/4"` (callers only apply it to one of the three keys). -/
def fracChars (q : ℚ) : List Char :=
  if q = 1/4 then ['1', '/', '4'] else if q = 1/2 then ['1', '/', '2'] else ['3', '/', '4']

/-- `format_amount` from `GrandMawsCookie_Console_Working.py`.

`none` models the failing `assert amount > 0` (an `AssertionError`); the
function never otherwise raises. -/
def format_amount (amount : ℚ) : Option String :=
  if amount ≤ 0 then none
  else if amount = (pyInt amount : ℚ) then some (String.mk (intChars (pyInt amount)))
  else
    let whole := pyInt amount
    let dec := pyRound2 (amount - (whole : ℚ))
    if 0 < whole ∧ (dec = 1/4 ∨ dec = 1/2 ∨ dec = 3/4) then
      some (String.mk (intChars whole ++ ' ' :: fracChars dec))
    else if dec = 1/4 ∨ dec = 1/2 ∨ dec = 3/4 then
      some (String.mk (fracChars dec))
    else
      some (String.mk (stripZerosDot (fixed2Chars amount)))

/-- `calculate_scaling_factor` from the source: `desired / original` with
the preconditions and the `result <= 100` sanity assertion modelled as
`none` (an `AssertionError`) when violated. -/
def calculate_scaling_factor (original desired : ℤ) : Option ℚ :=
  if 0 < original ∧ 0 < desired then
    let result := (desired : ℚ) / (original : ℚ)
    if 0 < result ∧ result ≤ 100 then some result else none
  else none

/-- One ingredient line of a recipe: `{"amount": ..., "unit": ...}`. -/
structure Entry where
  amount : ℚ
  unit : String
deriving DecidableEq

/-- `ORIGINAL_RECIPE` from the source: an insertion-ordered dict modelled as
an association list. -/
def ORIGINAL_RECIPE : List (String × Entry) :=
  [("flour", ⟨3, "cups"⟩),
   ("sugar", ⟨2, "cups"⟩),
   ("butter", ⟨1, "cup"⟩),
   ("eggs", ⟨4, "large"⟩),
   ("milk", ⟨1.5, "cups"⟩),
   ("baking_powder", ⟨2, "teaspoons"⟩),
   ("vanilla_extract", ⟨1, "teaspoon"⟩),
   ("salt", ⟨0.5, "teaspoon"⟩)]

/-- The per-ingredient loop of `scale_recipe`: multiply each amount by the
factor, with the two per-item sanity assertions (`scaled_amount > 0` and
`scaled_amount < 10000`) modelled as `none` when violated. -/
def scaleItems (scaling_factor : ℚ) : List (String × Entry) → Option (List (String × Entry))
  | [] => some []
  | (ingredient, details) :: rest =>
    let scaled_amount := details.amount * scaling_factor
    if 0 < scaled_amount ∧ scaled_amount < 10000 then
      match scaleItems scaling_factor rest with
      | some tail => some ((ingredient, ⟨scaled_amount, details.unit⟩) :: tail)
      | none => none
    else none

/-- `scale_recipe` from the source.  The leading asserts (non-empty recipe,
positive factor, well-formed entries with positive amounts) and the in-loop
sanity asserts are modelled as `none` (an `AssertionError`). -/
def scale_recipe (recipe : List (String × Entry)) (scaling_factor : ℚ) :
    Option (List (String × Entry)) :=
  if 0 < recipe.length ∧ 0 < scaling_factor ∧ ∀ p ∈ recipe, 0 < p.2.amount then
    scaleItems scaling_factor recipe
  else none

namespace APK

/-- `format_amount` as defined (verbatim copy) in `GrandMawsCookie_APK.py`. -/
def format_amount (amount : ℚ) : Option String :=
  if amount ≤ 0 then none
  else if amount = (pyInt amount : ℚ) then some (String.mk (intChars (pyInt amount)))
  else
    let whole := pyInt amount
    let dec := pyRound2 (amount - (whole : ℚ))
    if 0 < whole ∧ (dec = 1/4 ∨ dec = 1/2 ∨ dec = 3/4) then
      some (String.mk (intChars whole ++ ' ' :: fracChars dec))
    else if dec = 1/4 ∨ dec = 1/2 ∨ dec = 3/4 then
      some (String.mk (fracChars dec))
    else
      some (String.mk (stripZerosDot (fixed2Chars amount)))

/-- `is_valid_servings` as defined (verbatim copy) in
`GrandMawsCookie_APK.py`. -/
def is_valid_servings (servings_str : String) : Option (Bool × String × ℤ) :=
  if servings_str.data = [] then
    some (false, "Servings cannot be empty", 0)
  else
    match pyFloatChars (pyStrip servings_str.data) with
    | none => some (false, "Servings must be a valid number", 0)
    | some PyNum.nan => some (false, "Servings must be a valid number", 0)
    | some (PyNum.inf _) => none
    | some (PyNum.finite q) =>
      if q ≠ (pyInt q : ℚ) then some (false, "Servings must be a whole number", 0)
      else
        let servings := pyInt q
        if servings < MIN_SERVINGS then some (false, "Servings must be at least 1", 0)
        else if servings > MAX_SERVINGS then some (false, "Servings cannot exceed 100", 0)
        else some (true, "", servings)

/-- `calculate_scaling_factor` as defined (verbatim copy) in
`GrandMawsCookie_APK.py`. -/
def calculate_scaling_factor (original desired : ℤ) : Option ℚ :=
  if 0 < original ∧ 0 < desired then
    let result := (desired : ℚ) / (original : ℚ)
    if 0 < result ∧ result ≤ 100 then some result else none
  else none

/-- The per-ingredient loop of the APK file's `scale_recipe`. -/
def scaleItems (scaling_factor : ℚ) : List (String × Entry) → Option (List (String × Entry))
  | [] => some []
  | (ingredient, details) :: rest =>
    let scaled_amount := details.amount * scaling_factor
    if 0 < scaled_amount ∧ scaled_amount < 10000 then
      match scaleItems scaling_factor rest with
      | some tail => some ((ingredient, ⟨scaled_amount, details.unit⟩) :: tail)
      | none => none
    else none

/-- `scale_recipe` as defined (verbatim copy) in `GrandMawsCookie_APK.py`. -/
def scale_recipe (recipe : List (String × Entry)) (scaling_factor : ℚ) :
    Option (List (String × Entry)) :=
  if 0 < recipe.length ∧ 0 < scaling_factor ∧ ∀ p ∈ recipe, 0 < p.2.amount then
    scaleItems scaling_factor recipe
  else none

end APK

/-- The two verbatim copies of the scaling loop agree on every input. -/
theorem scaleItems_congr (f : ℚ) (l : List (String × Entry)) :
    APK.scaleItems f l = scaleItems f l := by
  induction l with
  | nil => rfl
  | cons hd tl ih =>
    obtain ⟨k, e⟩ := hd
    simp only [APK.scaleItems, scaleItems, ih]

/-! ### Digit characters -/

theorem isDigitChar_iff {c : Char} : isDigitChar c = true ↔ c ∈ digitList := by
  simp [isDigitChar]

theorem digitChar_mem {d : Nat} (h : d < 10) : digitChar d ∈ digitList := by
  interval_cases d <;> decide

theorem digitVal_digitChar {d : Nat} (h : d < 10) : digitVal (digitChar d) = d := by
  interval_cases d <;> decide

theorem digit_char_facts {c : Char} (h : c ∈ digitList) :
    asciiLower c = c ∧ c ≠ '-' ∧ c ≠ '+' ∧ c ≠ '_' ∧ c ≠ '.' ∧ pyIsSpace c = false := by
  fin_cases h <;> decide

/-! ### Decimal numerals and their digits -/

theorem natCharsRevFuel_irrel :
    ∀ fuel fuel2 n, n ≤ fuel → n ≤ fuel2 → natCharsRevFuel fuel n = natCharsRevFuel fuel2 n := by
  intro fuel
  induction fuel with
  | zero =>
    intro fuel2 n h1 _
    interval_cases n
    cases fuel2 with
    | zero => rfl
    | succ f2 => simp [natCharsRevFuel]
  | succ f ih =>
    intro fuel2 n h1 h2
    by_cases hn : n = 0
    · subst hn; cases fuel2 <;> simp [natCharsRevFuel]
    · obtain ⟨f2, rfl⟩ : ∃ f2, fuel2 = f2 + 1 := ⟨fuel2 - 1, by omega⟩
      have hdiv : n / 10 < n := Nat.div_lt_self (Nat.pos_of_ne_zero hn) (by decide)
      simp only [natCharsRevFuel, if_neg hn]
      rw [ih f2 (n / 10) (by omega) (by omega)]

theorem natCharsRev_eq (n : Nat) :
    natCharsRev n = if n = 0 then [] else digitChar (n % 10) :: natCharsRev (n / 10) := by
  by_cases hn : n = 0
  · subst hn; rfl
  · obtain ⟨m, rfl⟩ : ∃ m, n = m + 1 := ⟨n - 1, by omega⟩
    simp only [natCharsRev, natCharsRevFuel, if_neg hn]
    rw [natCharsRevFuel_irrel m ((m + 1) / 10) ((m + 1) / 10) (by omega) (by omega)]

theorem natCharsRev_mem (n : Nat) : ∀ c ∈ natCharsRev n, c ∈ digitList := by
  induction n using Nat.strong_induction_on with
  | _ n ih =>
    rw [natCharsRev_eq]
    by_cases hn : n = 0
    · simp [hn]
    · rw [if_neg hn]
      intro c hc
      rcases List.mem_cons.mp hc with rfl | hc
      · exact digitChar_mem (Nat.mod_lt _ (by decide))
      · exact ih (n / 10) (Nat.div_lt_self (Nat.pos_of_ne_zero hn) (by decide)) c hc

theorem natChars_mem (n : Nat) : ∀ c ∈ natChars n, c ∈ digitList := by
  unfold natChars
  by_cases hn : n = 0
  · simp [hn, digitList]
  · rw [if_neg hn]
    intro c hc
    exact natCharsRev_mem n c (List.mem_reverse.mp hc)

theorem natChars_ne_nil (n : Nat) : natChars n ≠ [] := by
  unfold natChars
  by_cases hn : n = 0
  · simp [hn]
  · rw [if_neg hn]
    rw [natCharsRev_eq, if_neg hn]
    simp

/-- Value accumulated by the digit scanner over a digit list, least
significant digit last (the usual base-10 left fold). -/
def foldDigits (v : ℕ) (ds : List Char) : ℕ :=
  ds.foldl (fun a c => 10 * a + digitVal c) v

/-- Value of a digit list read least-significant-first. -/
def valRev : List Char → ℕ
  | [] => 0
  | c :: cs => digitVal c + 10 * valRev cs

theorem valRev_natCharsRev (n : Nat) : valRev (natCharsRev n) = n := by
  induction n using Nat.strong_induction_on with
  | _ n ih =>
    rw [natCharsRev_eq]
    by_cases hn : n = 0
    · simp [hn, valRev]
    · rw [if_neg hn]
      simp only [valRev]
      rw [ih (n / 10) (Nat.div_lt_self (Nat.pos_of_ne_zero hn) (by decide))]
      rw [digitVal_digitChar (Nat.mod_lt _ (by decide))]
      omega

theorem foldDigits_reverse (ds : List Char) :
    ∀ v, foldDigits v ds.reverse = v * 10 ^ ds.length + valRev ds := by
  induction ds with
  | nil => intro v; simp [foldDigits, valRev]
  | cons c cs ih =>
    intro v
    simp only [List.reverse_cons, foldDigits, List.foldl_append, List.foldl_cons,
      List.foldl_nil, valRev, List.length_cons]
    have := ih v
    simp only [foldDigits] at this
    rw [this]
    ring

theorem foldDigits_natChars (n : Nat) : foldDigits 0 (natChars n) = n := by
  unfold natChars
  by_cases hn : n = 0
  · simp [hn, foldDigits, digitVal]
  · rw [if_neg hn, foldDigits_reverse, valRev_natCharsRev]
    simp

/-! ### The digit scanner on pure digit runs -/

theorem takeDigitPart_cons_digit {c : Char} (cs : List Char) (v k : Nat)
    (h : isDigitChar c = true) :
    takeDigitPart (c :: cs) v k = takeDigitPart cs (10 * v + digitVal c) (k + 1) := by
  cases cs <;> simp only [takeDigitPart, if_pos h]

theorem takeDigitPart_digits :
    ∀ ds v k, (∀ c ∈ ds, c ∈ digitList) →
      takeDigitPart ds v k = (foldDigits v ds, k + ds.length, []) := by
  intro ds
  induction ds with
  | nil => intro v k _; simp [takeDigitPart, foldDigits]
  | cons c cs ih =>
    intro v k hall
    have hc : c ∈ digitList := hall c (List.mem_cons_self c cs)
    rw [takeDigitPart_cons_digit cs v k (isDigitChar_iff.mpr hc)]
    rw [ih _ _ (fun x hx => hall x (List.mem_cons_of_mem c hx))]
    simp only [foldDigits, List.foldl_cons, List.length_cons, Prod.mk.injEq]
    exact ⟨trivial, by omega, trivial⟩

/-! ### Sign handling and the literal checks -/

theorem parseSign_digit {c : Char} (rest : List Char) (h : c ∈ digitList) :
    parseSign (c :: rest) = (false, c :: rest) := by
  obtain ⟨-, h1, h2, -, -, -⟩ := digit_char_facts h
  simp [parseSign, h1, h2]

theorem map_asciiLower_digits :
    ∀ {l : List Char}, (∀ c ∈ l, c ∈ digitList) → l.map asciiLower = l := by
  intro l
  induction l with
  | nil => intro _; rfl
  | cons c cs ih =>
    intro h
    rw [List.map_cons, (digit_char_facts (h c (List.mem_cons_self c cs))).1,
      ih (fun x hx => h x (List.mem_cons_of_mem c hx))]

theorem digits_ne_literals {l : List Char} (h : ∀ c ∈ l, c ∈ digitList) :
    l ≠ ['i', 'n', 'f'] ∧ l ≠ ['i', 'n', 'f', 'i', 'n', 'i', 't', 'y'] ∧
      l ≠ ['n', 'a', 'n'] := by
  refine ⟨fun heq => ?_, fun heq => ?_, fun heq => ?_⟩
  · have hi : 'i' ∈ l := by rw [heq]; exact List.mem_cons_self _ _
    have := h 'i' hi
    simp [digitList] at this
  · have hi : 'i' ∈ l := by rw [heq]; exact List.mem_cons_self _ _
    have := h 'i' hi
    simp [digitList] at this
  · have hi : 'n' ∈ l := by rw [heq]; exact List.mem_cons_self _ _
    have := h 'n' hi
    simp [digitList] at this

/-! ### Parsing the decimal numeral of an integer -/

theorem pyFloatBody_natChars (neg : Bool) (m : Nat) :
    pyFloatBody neg (natChars m) = some (mkPyFloat neg (m : ℚ)) := by
  have hmem := natChars_mem m
  obtain ⟨hne1, hne2, hne3⟩ := digits_ne_literals hmem
  have hlow := map_asciiLower_digits hmem
  have hlen : (natChars m).length ≠ 0 := by
    simpa using natChars_ne_nil m
  simp only [pyFloatBody, hlow]
  rw [if_neg (fun h => h.elim hne1 hne2), if_neg hne3]
  rw [takeDigitPart_digits _ 0 0 hmem]
  simp only [foldDigits_natChars, Nat.zero_add]
  rw [if_neg hlen]
  rfl

theorem parseSign_neg_head (rest : List Char) : parseSign ('-' :: rest) = (true, rest) := by
  simp [parseSign]

theorem pyFloatChars_intChars_cases (n : ℤ) :
    pyFloatChars (intChars n) =
      some (if n < 0 then mkPyFloat true ((n.natAbs : ℚ))
            else mkPyFloat false ((n.natAbs : ℚ))) := by
  by_cases hn : n < 0
  · rw [if_pos hn]
    have hsh : intChars n = '-' :: natChars n.natAbs := by rw [intChars, if_pos hn]
    rw [hsh]
    simp only [pyFloatChars, parseSign_neg_head]
    rw [pyFloatBody_natChars]
  · rw [if_neg hn]
    have hsh : intChars n = natChars n.toNat := by rw [intChars, if_neg hn]
    rw [hsh]
    obtain ⟨c, rest, hcr⟩ := List.exists_cons_of_ne_nil (natChars_ne_nil n.toNat)
    have hc : c ∈ digitList := by
      apply natChars_mem n.toNat
      rw [hcr]; exact List.mem_cons_self _ _
    simp only [pyFloatChars, hcr, parseSign_digit rest hc]
    rw [← hcr, pyFloatBody_natChars]
    have heq : n.toNat = n.natAbs := by omega
    rw [heq]

/-- A numeral whose magnitude stays below the double overflow threshold
parses to the exact finite value. -/
theorem pyFloatChars_intChars_finite (n : ℤ) (hfin : (n.natAbs : ℚ) < FLOAT_OVERFLOW) :
    pyFloatChars (intChars n) = some (PyNum.finite (n : ℚ)) := by
  rw [pyFloatChars_intChars_cases]
  by_cases hn : n < 0
  · rw [if_pos hn]
    unfold mkPyFloat
    rw [if_neg (not_le.mpr hfin)]
    have habs : ((n.natAbs : ℚ)) = -(n : ℚ) := by
      rw [Int.cast_natAbs, abs_of_neg hn, Int.cast_neg]
    simp [habs]
  · rw [if_neg hn]
    unfold mkPyFloat
    rw [if_neg (not_le.mpr hfin)]
    have habs : ((n.natAbs : ℚ)) = (n : ℚ) := by
      rw [Int.cast_natAbs, abs_of_nonneg (not_lt.mp hn)]
    simp [habs]

/-- A numeral whose magnitude reaches the double overflow threshold parses
to an infinity, as Python `float()` does. -/
theorem pyFloatChars_intChars_overflow (n : ℤ) (hbig : FLOAT_OVERFLOW ≤ (n.natAbs : ℚ)) :
    ∃ b, pyFloatChars (intChars n) = some (PyNum.inf b) := by
  rw [pyFloatChars_intChars_cases]
  by_cases hn : n < 0
  · rw [if_pos hn]
    exact ⟨true, by unfold mkPyFloat; rw [if_pos hbig]⟩
  · rw [if_neg hn]
    exact ⟨false, by unfold mkPyFloat; rw [if_pos hbig]⟩

/-! ### Stripping is the identity on numerals -/

theorem dropWhile_of_all_false {p : Char → Bool} {l : List Char}
    (h : ∀ c ∈ l, p c = false) : l.dropWhile p = l := by
  cases l with
  | nil => rfl
  | cons c cs => simp [List.dropWhile_cons, h c (List.mem_cons_self c cs)]

theorem pyStrip_of_all_nospace {l : List Char}
    (h : ∀ c ∈ l, pyIsSpace c = false) : pyStrip l = l := by
  unfold pyStrip
  rw [dropWhile_of_all_false h]
  rw [dropWhile_of_all_false (fun c hc => h c (List.mem_reverse.mp hc))]
  exact List.reverse_reverse l

theorem intChars_nospace (n : ℤ) : ∀ c ∈ intChars n, pyIsSpace c = false := by
  intro c hc
  unfold intChars at hc
  by_cases hn : n < 0
  · rw [if_pos hn] at hc
    rcases List.mem_cons.mp hc with rfl | hc
    · decide
    · exact (digit_char_facts (natChars_mem _ c hc)).2.2.2.2.2
  · rw [if_neg hn] at hc
    exact (digit_char_facts (natChars_mem _ c hc)).2.2.2.2.2

theorem intChars_ne_nil (n : ℤ) : intChars n ≠ [] := by
  unfold intChars
  by_cases hn : n < 0
  · rw [if_pos hn]; simp
  · rw [if_neg hn]; exact natChars_ne_nil _

/-! ### `is_valid_servings` on integer numerals -/

theorem pyInt_intCast (n : ℤ) : pyInt ((n : ℚ)) = n := by
  unfold pyInt
  by_cases h : (0 : ℚ) ≤ (n : ℚ)
  · rw [if_pos h, Int.floor_intCast]
  · rw [if_neg h, Int.ceil_intCast]

theorem is_valid_servings_numeral (n : ℤ) (hfin : (n.natAbs : ℚ) < FLOAT_OVERFLOW) :
    is_valid_servings (String.mk (intChars n)) =
      if n < 1 then some (false, "Servings must be at least 1", 0)
      else if 100 < n then some (false, "Servings cannot exceed 100", 0)
      else some (true, "", n) := by
  have hdata : (String.mk (intChars n)).data = intChars n := rfl
  simp only [is_valid_servings, hdata, if_neg (intChars_ne_nil n),
    pyStrip_of_all_nospace (intChars_nospace n), pyFloatChars_intChars_finite n hfin]
  rw [if_neg (not_not_intro (by rw [pyInt_intCast]))]
  rw [pyInt_intCast]
  simp only [MIN_SERVINGS, MAX_SERVINGS, gt_iff_lt]

/-- A numeral whose magnitude reaches the double overflow threshold makes
`is_valid_servings` raise: the parse yields an infinity and `int()` then
raises an uncaught `OverflowError`. -/
theorem is_valid_servings_numeral_overflow (n : ℤ)
    (hbig : FLOAT_OVERFLOW ≤ (n.natAbs : ℚ)) :
    is_valid_servings (String.mk (intChars n)) = none := by
  obtain ⟨b, hb⟩ := pyFloatChars_intChars_overflow n hbig
  have hdata : (String.mk (intChars n)).data = intChars n := rfl
  simp only [is_valid_servings, hdata, if_neg (intChars_ne_nil n),
    pyStrip_of_all_nospace (intChars_nospace n), hb]

/-! ### Trailing-strip lemmas -/

theorem dropTrailing_of_not_mem {c : Char} :
    ∀ {l : List Char}, (∀ a ∈ l, a ≠ c) → dropTrailing c l = l := by
  intro l
  induction l with
  | nil => intro _; rfl
  | cons a rest ih =>
    intro h
    simp only [dropTrailing]
    rw [ih (fun x hx => h x (List.mem_cons_of_mem a hx))]
    rw [if_neg (fun hc => h a (List.mem_cons_self a rest) hc.2)]

theorem mem_dropTrailing {c : Char} :
    ∀ {l a : _}, a ∈ dropTrailing c l → a ∈ l := by
  intro l
  induction l with
  | nil => intro a ha; exact absurd ha (by simp [dropTrailing])
  | cons b rest ih =>
    intro a ha
    simp only [dropTrailing] at ha
    by_cases hcond : dropTrailing c rest = [] ∧ b = c
    · rw [if_pos hcond] at ha
      exact absurd ha (List.not_mem_nil a)
    · rw [if_neg hcond] at ha
      rcases List.mem_cons.mp ha with rfl | ha
      · exact List.mem_cons_self a rest
      · exact List.mem_cons_of_mem b (ih ha)

theorem dropTrailing_append (c : Char) :
    ∀ (l1 l2 : List Char),
      dropTrailing c (l1 ++ l2) =
        if dropTrailing c l2 = [] then dropTrailing c l1 else l1 ++ dropTrailing c l2 := by
  intro l1 l2
  induction l1 with
  | nil =>
    by_cases h : dropTrailing c l2 = []
    · simp [h, dropTrailing]
    · simp [h]
  | cons a rest ih =>
    by_cases h : dropTrailing c l2 = []
    · rw [if_pos h] at ih ⊢
      show dropTrailing c (a :: (rest ++ l2)) = dropTrailing c (a :: rest)
      simp only [dropTrailing, List.append_eq, ih]
    · rw [if_neg h] at ih ⊢
      show dropTrailing c (a :: (rest ++ l2)) = (a :: rest) ++ dropTrailing c l2
      simp only [dropTrailing, List.append_eq, ih, List.cons_append]
      have hne : rest ++ dropTrailing c l2 ≠ [] := by
        simp [List.append_eq_nil, h]
      rw [if_neg (fun hc => hne hc.1)]

/-! ### The fixed two-decimal rendering never strips to nothing -/

theorem twoDigits_mem (m : Nat) : ∀ c ∈ twoDigits m, c ∈ digitList := by
  intro c hc
  unfold twoDigits at hc
  rcases List.mem_cons.mp hc with rfl | hc
  · exact digitChar_mem (Nat.mod_lt _ (by decide))
  · rcases List.mem_cons.mp hc with rfl | hc
    · exact digitChar_mem (Nat.mod_lt _ (by decide))
    · exact absurd hc (List.not_mem_nil c)

theorem stripZerosDot_form_ne_nil (m : Nat) (ds : List Char)
    (hds : ∀ c ∈ ds, c ∈ digitList) :
    stripZerosDot (natChars m ++ '.' :: ds) ≠ [] := by
  have hdigit_ne_dot : ∀ {l : List Char}, (∀ c ∈ l, c ∈ digitList) →
      ∀ a ∈ l, a ≠ '.' := fun hl a ha => (digit_char_facts (hl a ha)).2.2.2.2.1
  unfold stripZerosDot
  have hdot : dropTrailing '0' ('.' :: ds) = '.' :: dropTrailing '0' ds := by
    simp only [dropTrailing]
    rw [if_neg (fun hc => absurd hc.2 (by decide))]
  rw [dropTrailing_append, hdot, if_neg (List.cons_ne_nil _ _)]
  set ds2 := dropTrailing '0' ds with hds2def
  have hds2 : ∀ c ∈ ds2, c ∈ digitList := fun c hc => hds c (mem_dropTrailing hc)
  by_cases h2 : ds2 = []
  · rw [h2]
    rw [dropTrailing_append]
    have hone : dropTrailing '.' ['.'] = [] := rfl
    rw [hone, if_pos rfl]
    rw [dropTrailing_of_not_mem (hdigit_ne_dot (natChars_mem m))]
    exact natChars_ne_nil m
  · have hnd : dropTrailing '.' ds2 = ds2 :=
      dropTrailing_of_not_mem (hdigit_ne_dot hds2)
    have hcons : dropTrailing '.' ('.' :: ds2) = '.' :: ds2 := by
      simp only [dropTrailing]
      rw [hnd, if_neg (fun hc => h2 hc.1)]
    rw [dropTrailing_append, hcons, if_neg (List.cons_ne_nil _ _)]
    simp [List.append_eq_nil]

theorem stripZerosDot_fixed2_ne_nil (a : ℚ) : stripZerosDot (fixed2Chars a) ≠ [] := by
  unfold fixed2Chars
  exact stripZerosDot_form_ne_nil _ _ (twoDigits_mem _)

theorem mk_ne_empty {l : List Char} (h : l ≠ []) : String.mk l ≠ "" := by
  intro heq
  apply h
  have hd := congrArg String.data heq
  simpa using hd

/-! ### The formatting policy as the specification words it -/

/-- The display policy for amounts as the specification states it: whole
numbers render as integer strings; otherwise the remainder (rounded to two
decimals) is matched strictly against 1/4, 1/2, 3/4 and rendered as a bare
fraction (`whole = 0`) or a mixed number (`whole > 0`); anything else falls
through to a two-decimal rendering with trailing zeros and a trailing
decimal point stripped. -/
def formatAmountPolicy (a : ℚ) : String :=
  if a = (⌊a⌋ : ℚ) then String.mk (intChars ⌊a⌋)
  else
    let whole := ⌊a⌋
    let rem := pyRound2 (a - (whole : ℚ))
    if rem = 1/4 ∨ rem = 1/2 ∨ rem = 3/4 then
      if whole = 0 then String.mk (fracChars rem)
      else String.mk (intChars whole ++ ' ' :: fracChars rem)
    else String.mk (stripZerosDot (fixed2Chars a))

theorem pyInt_of_pos {a : ℚ} (ha : 0 < a) : pyInt a = ⌊a⌋ := by
  unfold pyInt
  rw [if_pos ha.le]

theorem format_amount_eq_policy (a : ℚ) (ha : 0 < a) :
    format_amount a = some (formatAmountPolicy a) := by
  have hwhole : 0 ≤ ⌊a⌋ := Int.floor_nonneg.mpr ha.le
  simp only [format_amount, formatAmountPolicy, pyInt_of_pos ha]
  rw [if_neg (not_le.mpr ha)]
  by_cases hint : a = ((⌊a⌋ : ℤ) : ℚ)
  · rw [if_pos hint, if_pos hint]
  · rw [if_neg hint, if_neg hint]
    by_cases hfrac : pyRound2 (a - (⌊a⌋ : ℚ)) = 1/4 ∨ pyRound2 (a - (⌊a⌋ : ℚ)) = 1/2 ∨
        pyRound2 (a - (⌊a⌋ : ℚ)) = 3/4
    · by_cases hz : ⌊a⌋ = 0
      · rw [if_neg (fun hc => absurd hc.1 (by omega))]
        rw [if_pos hfrac]
        rw [if_pos hfrac, if_pos hz]
      · have hgt : 0 < ⌊a⌋ := by omega
        rw [if_pos ⟨hgt, hfrac⟩]
        rw [if_pos hfrac, if_neg hz]
    · rw [if_neg (fun hc => hfrac hc.2), if_neg hfrac, if_neg hfrac]

theorem fracChars_ne_nil (q : ℚ) : fracChars q ≠ [] := by
  unfold fracChars
  split_ifs <;> simp

/-! ### Scaling loop characterisation -/

theorem scaleItems_map (f : ℚ) (hf : 0 < f) :
    ∀ l : List (String × Entry), (∀ p ∈ l, 0 < p.2.amount) →
      (∀ p ∈ l, p.2.amount * f < 10000) →
      scaleItems f l = some (l.map fun p => (p.1, Entry.mk (p.2.amount * f) p.2.unit)) := by
  intro l
  induction l with
  | nil => intro _ _; rfl
  | cons hd tl ih =>
    intro hpos hbound
    obtain ⟨k, e⟩ := hd
    have h1 : 0 < e.amount * f := mul_pos (hpos (k, e) (List.mem_cons_self _ _)) hf
    have h2 : e.amount * f < 10000 := hbound (k, e) (List.mem_cons_self _ _)
    simp only [scaleItems]
    rw [if_pos ⟨h1, h2⟩]
    rw [ih (fun p hp => hpos p (List.mem_cons_of_mem _ hp))
      (fun p hp => hbound p (List.mem_cons_of_mem _ hp))]
    rfl

/-! ## The claims -/

/-- C1 (amended): only the genuinely empty string produces the
`EmptyInput` message; a non-empty string that strips to nothing (whitespace
only) slips past the emptiness check — which runs before `strip()` — and
fails `float("")` instead, producing the `NotNumeric` message. -/
theorem C1_whitespace_not_empty_error :
    is_valid_servings "" = some (false, "Servings cannot be empty", 0) ∧
      ∀ s : String, s ≠ "" → pyStrip s.data = [] →
        is_valid_servings s = some (false, "Servings must be a valid number", 0) := by
  refine ⟨by decide, fun s hne hstrip => ?_⟩
  have hdata : s.data ≠ [] := by
    intro h
    exact hne (String.ext (h.trans rfl))
  simp only [is_valid_servings]
  rw [if_neg hdata, hstrip]
  rfl

/-- C1 counterexample: `"   "` trims to empty, yet `is_valid_servings`
returns the `NotNumeric` message `"Servings must be a valid number"`, not
the `EmptyInput` one, refuting the claim as stated. -/
theorem C1_counterexample :
    pyStrip ("   " : String).data = [] ∧
      is_valid_servings "   " ≠ some (false, "Servings cannot be empty", 0) ∧
      is_valid_servings "   " = some (false, "Servings must be a valid number", 0) := by
  decide

/-- C1 witness: the amended theorem applied at the concrete whitespace-only
input `"   "`. -/
theorem C1_witness :
    ("   " : String) ≠ "" ∧ pyStrip ("   " : String).data = [] ∧
      is_valid_servings "   " = some (false, "Servings must be a valid number", 0) :=
  ⟨by decide, by decide, C1_whitespace_not_empty_error.2 "   " (by decide) (by decide)⟩

/-- C2 (code bug evidence): on input `"inf"` the parser produces an
infinity, and `is_valid_servings` then raises an uncaught `OverflowError`
(`int(float("inf"))`), modelled as `none` — contradicting the claim that
validation never raises. -/
theorem C2_inf_crash :
    pyFloatChars (pyStrip ("inf" : String).data) = some (PyNum.inf false) ∧
      is_valid_servings "inf" = none := by
  decide

/-- C3: for every positive amount, `format_amount` follows the three-step
policy of the specification (whole number → integer string; remainder
rounded to two decimals matching 1/4, 1/2, 3/4 strictly → fraction or mixed
number; otherwise two-decimal rendering with trailing zeros and trailing
point stripped), and the five quoted examples hold. -/
theorem C3_format_amount_follows_policy :
    (∀ a : ℚ, 0 < a → format_amount a = some (formatAmountPolicy a)) ∧
      format_amount 1 = some "1" ∧ format_amount (1/2) = some "1/2" ∧
      format_amount (3/2) = some "1 1/2" ∧ format_amount (233/100) = some "2.33" ∧
      format_amount (1/4) = some "1/4" :=
  ⟨format_amount_eq_policy, by decide, by decide, by decide, by decide, by decide⟩

/-- C3 witness: the policy equivalence applied at the concrete amount 1/2. -/
theorem C3_witness :
    (0 : ℚ) < 1/2 ∧ format_amount (1/2) = some (formatAmountPolicy (1/2)) :=
  ⟨by decide, C3_format_amount_follows_policy.1 (1/2) (by decide)⟩

/-- C4 (amended): `scale_recipe` preserves key set, order, size and units
and multiplies every amount by the factor — provided additionally that every
scaled amount stays below 10000; otherwise the in-loop sanity assertion
aborts the call. -/
theorem C4_scale_recipe_amended :
    ∀ (recipe : List (String × Entry)) (f : ℚ), recipe ≠ [] → 0 < f →
      (∀ p ∈ recipe, 0 < p.2.amount) → (∀ p ∈ recipe, p.2.amount * f < 10000) →
      ∃ scaled, scale_recipe recipe f = some scaled ∧
        scaled = recipe.map (fun p => (p.1, Entry.mk (p.2.amount * f) p.2.unit)) ∧
        scaled.map Prod.fst = recipe.map Prod.fst ∧
        scaled.length = recipe.length ∧
        ∀ p ∈ scaled, 0 < p.2.amount := by
  intro recipe f hne hf hpos hbound
  refine ⟨recipe.map (fun p => (p.1, Entry.mk (p.2.amount * f) p.2.unit)), ?_, rfl, ?_, ?_, ?_⟩
  · simp only [scale_recipe]
    rw [if_pos ⟨List.length_pos.mpr hne, hf, hpos⟩]
    exact scaleItems_map f hf recipe hpos hbound
  · rw [List.map_map]
    simp [Function.comp]
  · simp
  · intro p hp
    obtain ⟨q, hq, rfl⟩ := List.mem_map.mp hp
    exact mul_pos (hpos q hq) hf

/-- C4 counterexample: a one-ingredient recipe with positive amount 9999 and
positive factor 2 satisfies every hypothesis of the claim, yet
`scale_recipe` aborts (the scaled amount 19998 trips the `< 10000` sanity
assertion) instead of returning a scaled recipe. -/
theorem C4_counterexample :
    ([("flour", Entry.mk 9999 "cups")] : List (String × Entry)) ≠ [] ∧
      (0 : ℚ) < 2 ∧
      (∀ p ∈ ([("flour", Entry.mk 9999 "cups")] : List (String × Entry)), 0 < p.2.amount) ∧
      scale_recipe [("flour", Entry.mk 9999 "cups")] 2 = none := by
  decide

/-- C4 witness: the amended theorem applied to the original recipe with
factor 2 (a doubling, all scaled amounts well below 10000). -/
theorem C4_witness :
    ORIGINAL_RECIPE ≠ [] ∧ (0 : ℚ) < 2 ∧
      (∀ p ∈ ORIGINAL_RECIPE, 0 < p.2.amount) ∧
      (∀ p ∈ ORIGINAL_RECIPE, p.2.amount * 2 < 10000) ∧
      ∃ scaled, scale_recipe ORIGINAL_RECIPE 2 = some scaled ∧
        scaled = ORIGINAL_RECIPE.map (fun p => (p.1, Entry.mk (p.2.amount * 2) p.2.unit)) ∧
        scaled.map Prod.fst = ORIGINAL_RECIPE.map Prod.fst ∧
        scaled.length = ORIGINAL_RECIPE.length ∧
        ∀ p ∈ scaled, 0 < p.2.amount :=
  ⟨by decide, by decide, by decide, by decide,
    C4_scale_recipe_amended ORIGINAL_RECIPE 2 (by decide) (by decide) (by decide) (by decide)⟩

/-- C5: scaling for the baseline serving count gives the factor exactly 1,
and scaling the original recipe by 1 reproduces it value-for-value. -/
theorem C5_baseline_roundtrip :
    calculate_scaling_factor ORIGINAL_SERVINGS ORIGINAL_SERVINGS = some 1 ∧
      scale_recipe ORIGINAL_RECIPE 1 = some ORIGINAL_RECIPE := by
  decide

/-- C6 (amended): `is_valid_servings (str n)` succeeds and returns `n` when
`1 ≤ n ≤ 100`; for an out-of-range `n` it fails with the `BelowMinimum`
message when `n < 1` and the `AboveMaximum` message when `n > 100` — but
only as long as the numeral still parses to a finite float, that is,
`|n| < 2 ^ 1024 - 2 ^ 970`; a numeral at or beyond the double overflow
threshold parses to an infinity and the call raises an uncaught
`OverflowError` instead of returning a bound error. -/
theorem C6_servings_bounds :
    ∀ n : ℤ,
      (1 ≤ n → n ≤ 100 → is_valid_servings (String.mk (intChars n)) = some (true, "", n)) ∧
      ((n.natAbs : ℚ) < FLOAT_OVERFLOW → n < 1 →
        is_valid_servings (String.mk (intChars n)) =
          some (false, "Servings must be at least 1", 0)) ∧
      ((n.natAbs : ℚ) < FLOAT_OVERFLOW → 100 < n →
        is_valid_servings (String.mk (intChars n)) =
          some (false, "Servings cannot exceed 100", 0)) ∧
      (FLOAT_OVERFLOW ≤ (n.natAbs : ℚ) →
        is_valid_servings (String.mk (intChars n)) = none) := by
  intro n
  refine ⟨fun h1 h2 => ?_, fun hfin h => ?_, fun hfin h => ?_, fun hbig => ?_⟩
  · have hfin : (n.natAbs : ℚ) < FLOAT_OVERFLOW := by
      have habs : (n.natAbs : ℚ) ≤ 100 := by
        have hle : n.natAbs ≤ 100 := by omega
        exact_mod_cast hle
      have hbound : (100 : ℚ) < FLOAT_OVERFLOW := by
        unfold FLOAT_OVERFLOW
        have h2 : (2 : ℚ) ^ 970 < 2 ^ 1023 := by
          gcongr <;> norm_num
        have h3 : (2 : ℚ) ^ 1023 + 2 ^ 1023 = 2 ^ 1024 := by ring
        have h4 : (100 : ℚ) < 2 ^ 1023 := by
          calc (100 : ℚ) < 2 ^ 7 := by norm_num
          _ ≤ 2 ^ 1023 := by gcongr <;> norm_num
        linarith
      linarith
    rw [is_valid_servings_numeral n hfin, if_neg (by omega), if_neg (by omega)]
  · rw [is_valid_servings_numeral n hfin, if_pos h]
  · rw [is_valid_servings_numeral n hfin, if_neg (by omega), if_pos h]
  · exact is_valid_servings_numeral_overflow n hbig

/-- C6 counterexample: `n = 10 ^ 400` exceeds `MAX_SERVINGS`, but instead of
failing with the `AboveMaximum` message, the call raises: the 401-digit
numeral overflows the float range (`float(str(10 ** 400))` is `inf`) and
`int(inf)` raises an uncaught `OverflowError`, refuting the claim as
stated. -/
theorem C6_counterexample :
    (100 : ℤ) < 10 ^ 400 ∧
      is_valid_servings (String.mk (intChars (10 ^ 400))) = none ∧
      is_valid_servings (String.mk (intChars (10 ^ 400))) ≠
        some (false, "Servings cannot exceed 100", 0) := by
  have h2 : (2 : ℚ) ^ 1024 ≤ 10 ^ 400 := by
    have h21 : (2 : ℚ) ^ 1024 ≤ 2 ^ 1200 := pow_le_pow_right₀ (by norm_num) (by norm_num)
    have h22 : (2 : ℚ) ^ 1200 = 8 ^ 400 := by
      rw [show (1200 : ℕ) = 3 * 400 from rfl, pow_mul]
      norm_num
    have h23 : (8 : ℚ) ^ 400 ≤ 10 ^ 400 := pow_le_pow_left₀ (by norm_num) (by norm_num) 400
    linarith
  have h3 : (0 : ℚ) < 2 ^ 970 := by positivity
  have h4 : ((((10 : ℤ) ^ 400).natAbs : ℚ)) = (10 : ℚ) ^ 400 := by
    rw [Int.natAbs_pow, Nat.cast_pow]
    norm_num
  have hbig : FLOAT_OVERFLOW ≤ ((((10 : ℤ) ^ 400).natAbs : ℚ)) := by
    rw [h4]
    unfold FLOAT_OVERFLOW
    linarith
  have h100 : (100 : ℤ) < 10 ^ 400 := by
    have h101 : (10 : ℤ) ^ 3 ≤ 10 ^ 400 := pow_le_pow_right₀ (by norm_num) (by norm_num)
    have h102 : (10 : ℤ) ^ 3 = 1000 := by norm_num
    linarith
  have hnone := is_valid_servings_numeral_overflow (10 ^ 400) hbig
  refine ⟨h100, hnone, ?_⟩
  rw [hnone]
  simp

/-- C6 witness: the bounds theorem applied at n = 12, whose numeral is the
string `"12"`. -/
theorem C6_witness :
    (1 : ℤ) ≤ 12 ∧ (12 : ℤ) ≤ 100 ∧ String.mk (intChars 12) = "12" ∧
      is_valid_servings (String.mk (intChars 12)) = some (true, "", 12) :=
  ⟨by decide, by decide, by decide, (C6_servings_bounds 12).1 (by decide) (by decide)⟩

/-- C7 (amended): for strictly positive integers, `calculate_scaling_factor`
returns the exact rational quotient `desired / original`, strictly positive —
provided the quotient is at most 100; a larger quotient trips the
`result <= 100` sanity assertion and the call raises instead of returning.
Over the valid range (baseline 12, desired 1..100) the factor always exists
and is at most 100. -/
theorem C7_scaling_factor_amended :
    (∀ o d : ℤ, 0 < o → 0 < d → (d : ℚ) / (o : ℚ) ≤ 100 →
      calculate_scaling_factor o d = some ((d : ℚ) / (o : ℚ)) ∧ 0 < (d : ℚ) / (o : ℚ)) ∧
    (∀ d : ℤ, 1 ≤ d → d ≤ 100 →
      ∃ r, calculate_scaling_factor 12 d = some r ∧ 0 < r ∧ r ≤ 100) := by
  have main : ∀ o d : ℤ, 0 < o → 0 < d → (d : ℚ) / (o : ℚ) ≤ 100 →
      calculate_scaling_factor o d = some ((d : ℚ) / (o : ℚ)) ∧ 0 < (d : ℚ) / (o : ℚ) := by
    intro o d ho hd hle
    have hopos : (0 : ℚ) < (o : ℚ) := by exact_mod_cast ho
    have hdpos : (0 : ℚ) < (d : ℚ) := by exact_mod_cast hd
    have hpos : 0 < (d : ℚ) / (o : ℚ) := div_pos hdpos hopos
    refine ⟨?_, hpos⟩
    simp only [calculate_scaling_factor]
    rw [if_pos ⟨ho, hd⟩, if_pos ⟨hpos, hle⟩]
  refine ⟨main, fun d h1 h100 => ?_⟩
  have hle : (d : ℚ) / ((12 : ℤ) : ℚ) ≤ 100 := by
    rw [div_le_iff₀ (by norm_num)]
    have hd100 : (d : ℚ) ≤ 100 := by exact_mod_cast h100
    push_cast
    linarith
  obtain ⟨heq, hpos⟩ := main 12 d (by decide) (by omega) hle
  exact ⟨_, heq, hpos, by rw [div_le_iff₀ (by norm_num)] at hle ⊢; exact hle⟩

/-- C7 counterexample: `original = 1` and `desired = 101` are strictly
positive, yet the quotient 101 exceeds 100, the sanity assertion fires, and
the call raises (modelled `none`) instead of returning the quotient. -/
theorem C7_counterexample :
    (0 : ℤ) < 1 ∧ (0 : ℤ) < 101 ∧ calculate_scaling_factor 1 101 = none := by
  decide

/-- C7 witness: the amended theorem applied at (12, 24), giving exactly 2. -/
theorem C7_witness :
    (0 : ℤ) < 12 ∧ (0 : ℤ) < 24 ∧ ((24 : ℤ) : ℚ) / ((12 : ℤ) : ℚ) ≤ 100 ∧
      calculate_scaling_factor 12 24 = some (((24 : ℤ) : ℚ) / ((12 : ℤ) : ℚ)) :=
  ⟨by decide, by decide, by decide,
    (C7_scaling_factor_amended.1 12 24 (by decide) (by decide) (by decide)).1⟩

/-- C8: `format_amount` returns a non-empty string for every strictly
positive amount, and fails (the positivity assertion raises) rather than
returning a string for every zero or negative amount. -/
theorem C8_format_amount_guards :
    ∀ a : ℚ, (0 < a → ∃ s, format_amount a = some s ∧ s ≠ "") ∧
      (a ≤ 0 → format_amount a = none) := by
  intro a
  constructor
  · intro ha
    simp only [format_amount]
    rw [if_neg (not_le.mpr ha)]
    split_ifs with h1 h2 h3
    · exact ⟨_, rfl, mk_ne_empty (intChars_ne_nil _)⟩
    · exact ⟨_, rfl, mk_ne_empty (by simp)⟩
    · exact ⟨_, rfl, mk_ne_empty (fracChars_ne_nil _)⟩
    · exact ⟨_, rfl, mk_ne_empty (stripZerosDot_fixed2_ne_nil a)⟩
  · intro ha
    simp only [format_amount]
    rw [if_pos ha]

/-- C8 witness: the guards applied at the positive amount 3/2 and at the
non-positive amount -1. -/
theorem C8_witness :
    ((0 : ℚ) < 3/2 ∧ ∃ s, format_amount (3/2) = some s ∧ s ≠ "") ∧
      ((-1 : ℚ) ≤ 0 ∧ format_amount (-1) = none) :=
  ⟨⟨by decide, (C8_format_amount_guards (3/2)).1 (by decide)⟩,
   ⟨by decide, (C8_format_amount_guards (-1)).2 (by decide)⟩⟩

/-- C9: the four core functions of the touch-UI file are extensionally equal
to the console file's functions of the same names: identical results
(including identical failure behaviour) on every input. -/
theorem C9_apk_console_equivalence :
    (∀ s, APK.is_valid_servings s = is_valid_servings s) ∧
      (∀ a, APK.format_amount a = format_amount a) ∧
      (∀ o d, APK.calculate_scaling_factor o d = calculate_scaling_factor o d) ∧
      (∀ R f, APK.scale_recipe R f = scale_recipe R f) :=
  ⟨fun _ => rfl, fun _ => rfl, fun _ _ => rfl, fun R f => by
    simp only [APK.scale_recipe, scale_recipe, scaleItems_congr]⟩

/-- C10: every amount strictly between 0 and 0.005 formats as the string
`"0"`: the integer part is 0, the remainder rounds to 0.00 and matches no
fraction, and `"0.00"` strips to `"0"` — a strictly positive amount can
display as zero. -/
theorem C10_tiny_amount_displays_zero :
    ∀ a : ℚ, 0 < a → a < 1/200 → format_amount a = some "0" := by
  intro a ha hb
  have hfl : ⌊a⌋ = 0 :=
    Int.floor_eq_zero_iff.mpr (Set.mem_Ico.mpr ⟨ha.le, by linarith⟩)
  have hpy : pyInt a = 0 := by rw [pyInt_of_pos ha, hfl]
  have hfl100 : ⌊a * 100⌋ = 0 :=
    Int.floor_eq_zero_iff.mpr (Set.mem_Ico.mpr ⟨by positivity, by linarith⟩)
  have hrhe : pyRoundHalfEven (a * 100) = 0 := by
    simp only [pyRoundHalfEven, hfl100]
    rw [if_pos (by push_cast; linarith)]
  have hdec : pyRound2 (a - ((0 : ℤ) : ℚ)) = 0 := by
    simp only [pyRound2, Int.cast_zero, sub_zero, hrhe]
    norm_num
  simp only [format_amount, hpy]
  rw [if_neg (not_le.mpr ha)]
  rw [if_neg (show a ≠ ((0 : ℤ) : ℚ) by push_cast; exact ne_of_gt ha)]
  simp only [hdec]
  rw [if_neg (by norm_num)]
  rw [if_neg (by norm_num)]
  simp only [fixed2Chars, hrhe]
  decide

/-- C10 witness: the tiny-amount theorem applied at the concrete amount
1/1000 = 0.001. -/
theorem C10_witness :
    (0 : ℚ) < 1/1000 ∧ (1/1000 : ℚ) < 1/200 ∧ format_amount (1/1000) = some "0" :=
  ⟨by decide, by decide, C10_tiny_amount_displays_zero (1/1000) (by decide) (by decide)⟩

